import Mathlib

/-!
Verification of the scope-based authorization core of `jupyterhub/scopes.py`.

Strings are modelled as `List Char` (Python strings are character sequences),
and Python dictionaries as association lists with insertion-order semantics:
assignment to an existing key updates its value in place, assignment to a new
key appends.  The external collaborators (the identity store reached through
`handler.find_user`, and the database queried by `_get_scope_filter`) are
parameters of the decision function, as they are external to this module.
-/

set_option autoImplicit false

namespace JupyterHub

abbrev Str := List Char

/-- First-match lookup in an association list, like `d[k]` / `k in d` on a
Python dict (whose keys are unique). -/
def dictLookup {α : Type} : List (Str × α) → Str → Option α
  | [], _ => none
  | (k, v) :: rest, key => if k = key then some v else dictLookup rest key

/-- Python dict assignment `d[k] = v`: update the value in place if the key is
present (keeping its position), otherwise append the new entry. -/
def dictInsert {α : Type} : List (Str × α) → Str → α → List (Str × α)
  | [], key, v => [(key, v)]
  | (k, w) :: rest, key, v =>
      if k = key then (key, v) :: rest else (k, w) :: dictInsert rest key v

/-- Python `s.partition(sep)` for a one-character separator, keeping the two
components the source consumes: the part before the first separator and the
part after it.  When the separator is absent the second component is empty,
exactly as Python's third component is the empty string in that case. -/
def pyPartition (sep : Char) : Str → Str × Str
  | [] => ([], [])
  | c :: cs =>
      if c = sep then ([], cs)
      else
        let p := pyPartition sep cs
        (c :: p.1, p.2)

/-- The value stored under a scope name: the metascope marker `Scope.ALL`
or a filter map from filter key to the list of allowed values. -/
inductive ScopeValue : Type where
  | all : ScopeValue
  | filter (m : List (Str × List Str)) : ScopeValue
deriving DecidableEq, Repr

abbrev ScopeModel := List (Str × ScopeValue)

/-- First half of the `parse_scopes` loop body: the `if not filter_:` /
`elif base_scope not in parsed_scopes:` initialization. -/
def parse_scope_step_init (parsed_scopes : ScopeModel) (base_scope filter_ : Str) : ScopeModel :=
  if filter_ = [] then dictInsert parsed_scopes base_scope .all
  else if (dictLookup parsed_scopes base_scope).isNone then
    dictInsert parsed_scopes base_scope (.filter [])
  else parsed_scopes

/-- Second half of the `parse_scopes` loop body: the
`if parsed_scopes[base_scope] != Scope.ALL:` filter-clause append
(`key, _, val = filter_.partition('=')` followed by
`parsed_scopes[base_scope][key].append(val)`). -/
def parse_scope_step_update (parsed1 : ScopeModel) (base_scope filter_ : Str) : ScopeModel :=
  match dictLookup parsed1 base_scope with
  | some (.filter fm) =>
      let q := pyPartition '=' filter_
      dictInsert parsed1 base_scope
        (.filter (dictInsert fm q.1 (((dictLookup fm q.1).getD []) ++ [q.2])))
  | _ => parsed1

/-- One iteration of the loop body of `parse_scopes`:
`base_scope, _, filter_ = scope.partition('!')` followed by the two halves. -/
def parse_scope_step (parsed_scopes : ScopeModel) (scope : Str) : ScopeModel :=
  let p := pyPartition '!' scope
  parse_scope_step_update (parse_scope_step_init parsed_scopes p.1 p.2) p.1 p.2

/-- `parse_scopes`: fold the per-string step over the raw scope list. -/
def parse_scopes (scope_list : List Str) : ScopeModel :=
  scope_list.foldl parse_scope_step []

def strUser : Str := "user".toList
def strServer : Str := "server".toList
def strGroup : Str := "group".toList
def strScopeFilter : Str := "scope_filter".toList

/-- The message of both `web.HTTPError(404, ...)` raises in the source. -/
def notFoundMsg : String := "No access to resources or resources not found"

/-- Outcome of `_check_scope`: `True` (unrestricted access), `False` (refused),
a filter set returned from `_get_scope_filter`, or a raised `web.HTTPError`. -/
inductive CheckResult : Type where
  | allow : CheckResult
  | deny : CheckResult
  | allowFiltered (ids : List Str) : CheckResult
  | httpError (status : Nat) (msg : String) : CheckResult
deriving DecidableEq, Repr

/-- `_needs_scope_expansion(filter_, filter_value, sub_scope)`. -/
def _needs_scope_expansion (filter_ filter_value : Str)
    (sub_scope : List (Str × List Str)) : Bool :=
  if ¬(filter_ = strUser ∧ (dictLookup sub_scope strGroup).isSome) then false
  else
    match dictLookup sub_scope strUser with
    | some vs => !(vs.contains filter_value)
    | none => true

/-- `_check_user_in_expanded_scope(handler, user_name, scope_group_names)`.
The identity store (`handler.find_user` followed by reading `user.groups`) is
the parameter `find_user`, returning the user's group names, or `none` when
the user is unknown — in which case the source raises `HTTPError(404)`,
modelled as `Except.error`. -/
def _check_user_in_expanded_scope (find_user : Str → Option (List Str))
    (user_name : Str) (scope_group_names : List Str) : Except (Nat × String) Bool :=
  match find_user user_name with
  | none => .error (404, notFoundMsg)
  | some group_names => .ok (scope_group_names.any (fun g => group_names.contains g))

/-- The test `filter_ in sub_scope and filter_value in sub_scope[filter_]`. -/
def attr_matches (sub_scope : List (Str × List Str)) (filter_ filter_value : Str) : Bool :=
  match dictLookup sub_scope filter_ with
  | some vs => vs.contains filter_value
  | none => false

/-- The `for (filter_, filter_value) in kwargs.items()` loop of `_check_scope`,
falling through to `raise web.HTTPError(404, ...)`. -/
def check_scope_loop (find_user : Str → Option (List Str))
    (sub_scope : List (Str × List Str)) : List (Str × Str) → CheckResult
  | [] => .httpError 404 notFoundMsg
  | (filter_, filter_value) :: rest =>
      if attr_matches sub_scope filter_ filter_value then .allow
      else if _needs_scope_expansion filter_ filter_value sub_scope then
        match _check_user_in_expanded_scope find_user filter_value
            ((dictLookup sub_scope strGroup).getD []) with
        | .error e => .httpError e.1 e.2
        | .ok true => .allow
        | .ok false => check_scope_loop find_user sub_scope rest
      else check_scope_loop find_user sub_scope rest

/-- The first step of `_check_scope`: when both `user` and `server` attributes
are present, `kwargs['server'] = "{}/{}".format(kwargs['user'], kwargs['server'])`
(an in-place dict value update on the `server` key). -/
def compose_server (kwargs : List (Str × Str)) : List (Str × Str) :=
  match dictLookup kwargs strUser, dictLookup kwargs strServer with
  | some u, some s =>
      kwargs.map (fun p => if p.1 = strServer then (p.1, u ++ '/' :: s) else p)
  | _, _ => kwargs

/-- `_check_scope(api_handler, req_scope, **kwargs)`.  The handler supplies the
identity store `find_user` and (through `api_handler.db`) the query engine
behind `_get_scope_filter`, abstracted as `get_scope_filter`. -/
def _check_scope (find_user : Str → Option (List Str))
    (get_scope_filter : Str → List (Str × List Str) → List Str)
    (parsed_scopes : ScopeModel) (req_scope : Str)
    (kwargs0 : List (Str × Str)) : CheckResult :=
  let kwargs := compose_server kwargs0
  match dictLookup parsed_scopes req_scope with
  | none => .deny
  | some .all => .allow
  | some (.filter sub_scope) =>
      if (dictLookup kwargs strScopeFilter).isSome then
        .allowFiltered (get_scope_filter req_scope sub_scope)
      else if kwargs = [] then .deny
      else check_scope_loop find_user sub_scope kwargs

/-- The six base scopes of `get_user_scopes`. -/
def user_scope_list : List Str :=
  ["users".toList, "users:name".toList, "users:groups".toList,
   "users:activity".toList, "users:servers".toList, "users:tokens".toList]

/-- `get_user_scopes(name)`: the six base scopes and their `read:`-prefixed
variants, each formatted as `"{scope}!user={name}"`, collected into a set. -/
def get_user_scopes (name : Str) : Finset Str :=
  ((user_scope_list ++ user_scope_list.map (fun s => "read:".toList ++ s)).map
    (fun scope => scope ++ "!user=".toList ++ name)).toFinset

/-- Whether one attribute pair lets the `_check_scope` loop return `True` on
its own: either a direct filter match, or applicable group expansion with the
target user a member of at least one listed group. -/
def entry_grants (find_user : Str → Option (List Str))
    (sub_scope : List (Str × List Str)) (p : Str × Str) : Bool :=
  attr_matches sub_scope p.1 p.2 ||
  (_needs_scope_expansion p.1 p.2 sub_scope &&
    match find_user p.2 with
    | some group_names =>
        ((dictLookup sub_scope strGroup).getD []).any (fun g => group_names.contains g)
    | none => false)

/-- Shape invariant of parsed scope models: every stored value is the
metascope marker or a non-empty filter map. -/
def wf_model (m : ScopeModel) : Prop :=
  ∀ k v, dictLookup m k = some v → v = .all ∨ ∃ fm, v = ScopeValue.filter fm ∧ fm ≠ []

/-- An identity store that knows no user at all. -/
def no_user_store : Str → Option (List Str) := fun _ => none

/-- A database filter resolver returning no identifiers. -/
def empty_db_filter : Str → List (Str × List Str) → List Str := fun _ _ => []

/-- An identity store knowing a single user `carol`, member of `admins`. -/
def carol_store : Str → Option (List Str) :=
  fun u => if u = "carol".toList then some ["admins".toList] else none

/-- Scope model for the order-dependence counterexamples: scope `s` granted
for group `admins` and for the concrete server `ghost/default`. -/
def ce_model : ScopeModel :=
  [("s".toList, .filter
    [("group".toList, ["admins".toList]),
     ("server".toList, ["ghost/default".toList])])]

/-- Attributes `{user: ghost, server: default}` listed user-first. -/
def ce_kwargs_user_first : List (Str × Str) :=
  [("user".toList, "ghost".toList), ("server".toList, "default".toList)]

/-- The same attribute map listed server-first. -/
def ce_kwargs_server_first : List (Str × Str) :=
  [("server".toList, "default".toList), ("user".toList, "ghost".toList)]

/-! ## Association-list (Python dict) lemmas -/

theorem dictLookup_dictInsert {α : Type} (m : List (Str × α)) (k : Str) (v : α) (key : Str) :
    dictLookup (dictInsert m k v) key = if k = key then some v else dictLookup m key := by
  induction m with
  | nil => simp [dictInsert, dictLookup]
  | cons hd tl ih =>
    obtain ⟨k', v'⟩ := hd
    by_cases hk : k' = k
    · subst hk
      by_cases hkey : k' = key <;> simp [dictInsert, dictLookup, hkey]
    · by_cases hkey : k' = key
      · subst hkey
        simp [dictInsert, dictLookup, hk, Ne.symm hk]
      · simp [dictInsert, dictLookup, hk, hkey, ih]

theorem dictLookup_eq_none {α : Type} (l : List (Str × α)) (key : Str) :
    dictLookup l key = none ↔ key ∉ l.map Prod.fst := by
  induction l with
  | nil => simp [dictLookup]
  | cons hd tl ih =>
    obtain ⟨k, v⟩ := hd
    by_cases hk : k = key
    · subst hk
      have hv : dictLookup ((k, v) :: tl) k = some v := by
        simp [dictLookup]
      rw [hv]
      constructor
      · intro h
        exact (Option.some_ne_none v h).elim
      · intro h
        exact False.elim (h (List.mem_map_of_mem Prod.fst (List.mem_cons_self _ _)))
    · have hstep : dictLookup ((k, v) :: tl) key = dictLookup tl key := by
        simp only [dictLookup, hk, ite_false]
      rw [hstep, ih]
      simp only [List.map_cons, List.mem_cons]
      constructor
      · rintro hnotin (heq | hmem)
        · exact hk heq.symm
        · exact hnotin hmem
      · intro hnot hmem
        exact hnot (Or.inr hmem)

theorem dictLookup_isSome {α : Type} (l : List (Str × α)) (key : Str) :
    (dictLookup l key).isSome = true ↔ key ∈ l.map Prod.fst := by
  rw [← Decidable.not_iff_not, ← dictLookup_eq_none]
  cases dictLookup l key <;> simp

theorem mem_of_dictLookup {α : Type} {l : List (Str × α)} {k : Str} {v : α}
    (h : dictLookup l k = some v) : (k, v) ∈ l := by
  induction l with
  | nil => simp [dictLookup] at h
  | cons hd tl ih =>
    obtain ⟨k', v'⟩ := hd
    by_cases hk : k' = k
    · subst hk
      simp [dictLookup] at h
      simp [h]
    · simp [dictLookup, hk] at h
      exact List.mem_cons_of_mem _ (ih h)

theorem dictLookup_of_mem {α : Type} {l : List (Str × α)} {k : Str} {v : α}
    (hnd : (l.map Prod.fst).Nodup) (h : (k, v) ∈ l) : dictLookup l k = some v := by
  induction l with
  | nil => simp at h
  | cons hd tl ih =>
    obtain ⟨k', v'⟩ := hd
    simp only [List.map_cons, List.nodup_cons] at hnd
    rcases List.mem_cons.mp h with heq | hmem
    · rw [← heq]
      simp [dictLookup]
    · have hk : k' ≠ k := by
        intro hkk
        exact hnd.1 (hkk ▸ List.mem_map_of_mem Prod.fst hmem)
      simp [dictLookup, hk, ih hnd.2 hmem]

theorem dictLookup_unique {α : Type} {l : List (Str × α)} {k : Str} {a b : α}
    (hnd : (l.map Prod.fst).Nodup) (ha : (k, a) ∈ l) (hb : (k, b) ∈ l) : a = b := by
  have h1 := dictLookup_of_mem hnd ha
  have h2 := dictLookup_of_mem hnd hb
  rw [h1] at h2
  exact Option.some.inj h2

theorem dictLookup_perm {α : Type} {l l' : List (Str × α)} (h : l.Perm l')
    (hnd : (l.map Prod.fst).Nodup) (key : Str) : dictLookup l key = dictLookup l' key := by
  have hnd' : (l'.map Prod.fst).Nodup := (h.map Prod.fst).nodup hnd
  cases hl : dictLookup l key with
  | none =>
    rw [dictLookup_eq_none] at hl
    symm
    rw [dictLookup_eq_none]
    intro hmem
    exact hl (((h.map Prod.fst).mem_iff).mpr hmem)
  | some v =>
    exact (dictLookup_of_mem hnd' (h.mem_iff.mp (mem_of_dictLookup hl))).symm

theorem dictInsert_ne_nil {α : Type} (m : List (Str × α)) (k : Str) (v : α) :
    dictInsert m k v ≠ [] := by
  cases m with
  | nil => simp [dictInsert]
  | cons hd tl =>
    obtain ⟨k', v'⟩ := hd
    by_cases hk : k' = k <;> simp [dictInsert, hk]

theorem list_any_perm {α : Type} {l l' : List α} (p : α → Bool) (h : l.Perm l') :
    l.any p = l'.any p := by
  cases hl : l.any p with
  | true =>
    rw [List.any_eq_true] at hl
    obtain ⟨x, hx, hpx⟩ := hl
    exact (List.any_eq_true.mpr ⟨x, h.mem_iff.mp hx, hpx⟩).symm
  | false =>
    rw [List.any_eq_false] at hl
    symm
    rw [List.any_eq_false]
    intro x hx
    exact hl x (h.mem_iff.mpr hx)

/-! ## Partition and parser lemmas -/

theorem pyPartition_not_mem {sep : Char} {l : Str} (h : sep ∉ l) :
    pyPartition sep l = (l, []) := by
  induction l with
  | nil => rfl
  | cons c cs ih =>
    simp only [List.mem_cons, not_or] at h
    have hc : ¬ c = sep := fun hc => h.1 hc.symm
    simp [pyPartition, hc, ih h.2]

theorem pyPartition_append_sep {sep : Char} {l : Str} (h : sep ∉ l) :
    pyPartition sep (l ++ [sep]) = (l, []) := by
  induction l with
  | nil => simp [pyPartition]
  | cons c cs ih =>
    simp only [List.mem_cons, not_or] at h
    have hc : ¬ c = sep := fun hc => h.1 hc.symm
    simp [pyPartition, hc, ih h.2]

theorem parse_scope_step_eq (m : ScopeModel) (s : Str) :
    parse_scope_step m s =
      parse_scope_step_update
        (parse_scope_step_init m (pyPartition '!' s).1 (pyPartition '!' s).2)
        (pyPartition '!' s).1 (pyPartition '!' s).2 := rfl

theorem parse_scope_step_init_lookup_other {m : ScopeModel} {base name : Str}
    (hne : base ≠ name) (filt : Str) :
    dictLookup (parse_scope_step_init m base filt) name = dictLookup m name := by
  unfold parse_scope_step_init
  by_cases hf : filt = []
  · rw [if_pos hf, dictLookup_dictInsert, if_neg hne]
  · rw [if_neg hf]
    by_cases hn : (dictLookup m base).isNone
    · rw [if_pos hn, dictLookup_dictInsert, if_neg hne]
    · rw [if_neg hn]

theorem parse_scope_step_update_lookup_other {m1 : ScopeModel} {base name : Str}
    (hne : base ≠ name) (filt : Str) :
    dictLookup (parse_scope_step_update m1 base filt) name = dictLookup m1 name := by
  unfold parse_scope_step_update
  cases hv : dictLookup m1 base with
  | none => rfl
  | some v =>
    cases v with
    | all => rfl
    | filter fm => rw [dictLookup_dictInsert, if_neg hne]

theorem parse_scope_step_lookup_other {m : ScopeModel} {s name : Str}
    (hne : (pyPartition '!' s).1 ≠ name) :
    dictLookup (parse_scope_step m s) name = dictLookup m name := by
  rw [parse_scope_step_eq]
  rw [parse_scope_step_update_lookup_other hne, parse_scope_step_init_lookup_other hne]

theorem parse_scope_step_update_preserves_all {m1 : ScopeModel} {base : Str}
    (h : dictLookup m1 base = some .all) (filt : Str) :
    parse_scope_step_update m1 base filt = m1 := by
  unfold parse_scope_step_update
  rw [h]

theorem parse_scope_step_preserves_all {m : ScopeModel} {name : Str}
    (h : dictLookup m name = some .all) (s : Str) :
    dictLookup (parse_scope_step m s) name = some .all := by
  by_cases hne : (pyPartition '!' s).1 = name
  · rw [parse_scope_step_eq, hne]
    have hinit : dictLookup (parse_scope_step_init m name (pyPartition '!' s).2) name
        = some .all := by
      unfold parse_scope_step_init
      by_cases hf : (pyPartition '!' s).2 = []
      · rw [if_pos hf, dictLookup_dictInsert, if_pos rfl]
      · rw [if_neg hf]
        have hns : ¬ (dictLookup m name).isNone = true := by
          rw [h]
          simp
        rw [if_neg hns]
        exact h
    rw [parse_scope_step_update_preserves_all hinit]
    exact hinit
  · rw [parse_scope_step_lookup_other hne, h]

theorem foldl_parse_preserves_all {l : List Str} {m : ScopeModel} {name : Str}
    (h : dictLookup m name = some .all) :
    dictLookup (l.foldl parse_scope_step m) name = some .all := by
  induction l generalizing m with
  | nil => exact h
  | cons s rest ih => exact ih (parse_scope_step_preserves_all h s)

theorem parse_scope_step_unfiltered (m : ScopeModel) (name : Str) (h : ('!') ∉ name) :
    parse_scope_step m name = dictInsert m name .all := by
  rw [parse_scope_step_eq, pyPartition_not_mem h]
  show parse_scope_step_update (parse_scope_step_init m name []) name [] = dictInsert m name .all
  have hinit : parse_scope_step_init m name [] = dictInsert m name .all := by
    unfold parse_scope_step_init
    rw [if_pos rfl]
  rw [hinit]
  apply parse_scope_step_update_preserves_all
  rw [dictLookup_dictInsert, if_pos rfl]

theorem parse_init_update_wf {m : ScopeModel} (hw : wf_model m) (base filt : Str) :
    wf_model (parse_scope_step_update (parse_scope_step_init m base filt) base filt) := by
  by_cases hf : filt = []
  · have hinit : parse_scope_step_init m base filt = dictInsert m base .all := by
      unfold parse_scope_step_init
      rw [if_pos hf]
    rw [hinit,
      parse_scope_step_update_preserves_all (by rw [dictLookup_dictInsert, if_pos rfl])]
    intro k v hv
    rw [dictLookup_dictInsert] at hv
    by_cases hbk : base = k
    · rw [if_pos hbk] at hv
      exact Or.inl (Option.some.inj hv).symm
    · rw [if_neg hbk] at hv
      exact hw k v hv
  · cases hmb : dictLookup m base with
    | none =>
      have hinit : parse_scope_step_init m base filt = dictInsert m base (.filter []) := by
        unfold parse_scope_step_init
        rw [if_neg hf, if_pos (by rw [hmb]; rfl)]
      rw [hinit]
      have hl : dictLookup (dictInsert m base (ScopeValue.filter [])) base
          = some (.filter []) := by
        rw [dictLookup_dictInsert, if_pos rfl]
      unfold parse_scope_step_update
      rw [hl]
      intro k v hv
      rw [dictLookup_dictInsert] at hv
      by_cases hbk : base = k
      · rw [if_pos hbk] at hv
        exact Or.inr ⟨_, (Option.some.inj hv).symm, dictInsert_ne_nil _ _ _⟩
      · rw [if_neg hbk, dictLookup_dictInsert, if_neg hbk] at hv
        exact hw k v hv
    | some sv =>
      have hinit : parse_scope_step_init m base filt = m := by
        unfold parse_scope_step_init
        rw [if_neg hf, if_neg (by rw [hmb]; simp)]
      rw [hinit]
      cases sv with
      | all =>
        rw [parse_scope_step_update_preserves_all hmb]
        exact hw
      | filter fm =>
        unfold parse_scope_step_update
        rw [hmb]
        intro k v hv
        rw [dictLookup_dictInsert] at hv
        by_cases hbk : base = k
        · rw [if_pos hbk] at hv
          exact Or.inr ⟨_, (Option.some.inj hv).symm, dictInsert_ne_nil _ _ _⟩
        · rw [if_neg hbk] at hv
          exact hw k v hv

theorem parse_scopes_wf (l : List Str) : wf_model (parse_scopes l) := by
  unfold parse_scopes
  have h : ∀ m : ScopeModel, wf_model m → wf_model (l.foldl parse_scope_step m) := by
    induction l with
    | nil =>
      intro m hm
      exact hm
    | cons s rest ih =>
      intro m hm
      exact ih _ (parse_init_update_wf hm _ _)
  refine h [] ?_
  intro k v hv
  simp [dictLookup] at hv

/-! ## Decision-engine lemmas -/

theorem check_user_error_eq {fu : Str → Option (List Str)} {u : Str} {g : List Str}
    {e : Nat × String} (h : _check_user_in_expanded_scope fu u g = .error e) :
    e = (404, notFoundMsg) := by
  unfold _check_user_in_expanded_scope at h
  cases hf : fu u with
  | none =>
    rw [hf] at h
    exact (Except.error.inj h).symm
  | some gn =>
    rw [hf] at h
    exact Except.noConfusion h

theorem check_scope_loop_404 {fu : Str → Option (List Str)}
    {sub : List (Str × List Str)} {l : List (Str × Str)}
    (h : ∀ p ∈ l, attr_matches sub p.1 p.2 = false ∧
      (_needs_scope_expansion p.1 p.2 sub = true →
        _check_user_in_expanded_scope fu p.2 ((dictLookup sub strGroup).getD []) ≠ .ok true)) :
    check_scope_loop fu sub l = .httpError 404 notFoundMsg := by
  induction l with
  | nil => rfl
  | cons p rest ih =>
    obtain ⟨k, v⟩ := p
    have hp := h (k, v) (List.mem_cons_self _ _)
    have hrest := ih (fun q hq => h q (List.mem_cons_of_mem _ hq))
    unfold check_scope_loop
    simp only at hp
    rw [if_neg (by rw [hp.1]; simp)]
    by_cases hexp : _needs_scope_expansion k v sub = true
    · rw [if_pos hexp]
      cases hc : _check_user_in_expanded_scope fu v ((dictLookup sub strGroup).getD []) with
      | error e =>
        have he := check_user_error_eq hc
        subst he
        simp only [hc]
      | ok b =>
        cases b with
        | true => exact absurd hc (hp.2 hexp)
        | false =>
          simp only [hc]
          exact hrest
    · rw [if_neg hexp]
      exact hrest

theorem check_scope_loop_char {fu : Str → Option (List Str)}
    {sub : List (Str × List Str)} {l : List (Str × Str)}
    (h : ∀ p ∈ l, _needs_scope_expansion p.1 p.2 sub = true → (fu p.2).isSome = true) :
    check_scope_loop fu sub l =
      if l.any (entry_grants fu sub) then CheckResult.allow
      else CheckResult.httpError 404 notFoundMsg := by
  induction l with
  | nil => simp [check_scope_loop]
  | cons p rest ih =>
    obtain ⟨k, v⟩ := p
    have hrest := ih (fun q hq => h q (List.mem_cons_of_mem _ hq))
    unfold check_scope_loop
    by_cases hm : attr_matches sub k v = true
    · rw [if_pos hm]
      have hg : entry_grants fu sub (k, v) = true := by
        simp [entry_grants, hm]
      rw [List.any_cons, hg]
      simp
    · rw [if_neg hm]
      rw [Bool.not_eq_true] at hm
      by_cases hexp : _needs_scope_expansion k v sub = true
      · rw [if_pos hexp]
        have hsome := h (k, v) (List.mem_cons_self _ _) hexp
        obtain ⟨gn, hgn⟩ := Option.isSome_iff_exists.mp hsome
        have hc : _check_user_in_expanded_scope fu v ((dictLookup sub strGroup).getD [])
            = .ok (((dictLookup sub strGroup).getD []).any (fun g => gn.contains g)) := by
          unfold _check_user_in_expanded_scope
          rw [hgn]
        rw [hc]
        have hg : entry_grants fu sub (k, v)
            = ((dictLookup sub strGroup).getD []).any (fun g => gn.contains g) := by
          simp [entry_grants, hm, hexp, hgn]
        cases hb : ((dictLookup sub strGroup).getD []).any (fun g => gn.contains g) with
        | true =>
          rw [List.any_cons, hg, hb]
          simp
        | false =>
          rw [List.any_cons, hg, hb]
          simp only [Bool.false_or]
          exact hrest
      · rw [if_neg hexp]
        have hg : entry_grants fu sub (k, v) = false := by
          rw [Bool.not_eq_true] at hexp
          simp [entry_grants, hm, hexp]
        rw [List.any_cons, hg]
        simp only [Bool.false_or]
        exact hrest

theorem compose_server_keys (kw : List (Str × Str)) :
    (compose_server kw).map Prod.fst = kw.map Prod.fst := by
  unfold compose_server
  cases hu : dictLookup kw strUser with
  | none => rfl
  | some u =>
    cases hs : dictLookup kw strServer with
    | none => rfl
    | some s =>
      rw [List.map_map]
      apply List.map_congr_left
      intro p _
      by_cases hp : p.1 = strServer <;> simp [hp]

theorem compose_server_mem_iff {kw : List (Str × Str)} {k x : Str} (h : k ≠ strServer) :
    (k, x) ∈ compose_server kw ↔ (k, x) ∈ kw := by
  unfold compose_server
  cases hu : dictLookup kw strUser with
  | none => exact Iff.rfl
  | some u =>
    cases hs : dictLookup kw strServer with
    | none => exact Iff.rfl
    | some s =>
      constructor
      · intro hmem
        obtain ⟨p, hp, hfp⟩ := List.mem_map.mp hmem
        by_cases hps : p.1 = strServer
        · rw [if_pos hps] at hfp
          exact absurd ((Prod.mk.injEq _ _ _ _).mp hfp).1.symm (hps ▸ h)
        · rw [if_neg hps] at hfp
          rw [← hfp]
          exact hp
      · intro hmem
        exact List.mem_map.mpr ⟨(k, x), hmem, by rw [if_neg h]⟩

theorem compose_server_perm {kw kw' : List (Str × Str)} (h : kw.Perm kw')
    (hnd : (kw.map Prod.fst).Nodup) :
    (compose_server kw).Perm (compose_server kw') := by
  unfold compose_server
  rw [dictLookup_perm h hnd strUser, dictLookup_perm h hnd strServer]
  cases dictLookup kw' strUser with
  | none => exact h
  | some u =>
    cases dictLookup kw' strServer with
    | none => exact h
    | some s => exact h.map _

theorem check_scope_eq (fu : Str → Option (List Str))
    (gsf : Str → List (Str × List Str) → List Str)
    (model : ScopeModel) (req : Str) (kw0 : List (Str × Str)) :
    _check_scope fu gsf model req kw0 =
      match dictLookup model req with
      | none => CheckResult.deny
      | some .all => CheckResult.allow
      | some (.filter sub_scope) =>
          if (dictLookup (compose_server kw0) strScopeFilter).isSome then
            CheckResult.allowFiltered (gsf req sub_scope)
          else if compose_server kw0 = [] then CheckResult.deny
          else check_scope_loop fu sub_scope (compose_server kw0) := rfl

theorem check_scope_deny_of_absent {fu : Str → Option (List Str)}
    {gsf : Str → List (Str × List Str) → List Str}
    {model : ScopeModel} {req : Str} (kw : List (Str × Str))
    (h : dictLookup model req = none) :
    _check_scope fu gsf model req kw = .deny := by
  rw [check_scope_eq, h]

theorem check_scope_allow_of_all {fu : Str → Option (List Str)}
    {gsf : Str → List (Str × List Str) → List Str}
    {model : ScopeModel} {req : Str} (kw : List (Str × Str))
    (h : dictLookup model req = some .all) :
    _check_scope fu gsf model req kw = .allow := by
  rw [check_scope_eq, h]

theorem check_scope_filter_case {fu : Str → Option (List Str)}
    {gsf : Str → List (Str × List Str) → List Str}
    {model : ScopeModel} {req : Str} {sub : List (Str × List Str)}
    (kw : List (Str × Str))
    (hsub : dictLookup model req = some (ScopeValue.filter sub)) :
    _check_scope fu gsf model req kw =
      if (dictLookup (compose_server kw) strScopeFilter).isSome then
        CheckResult.allowFiltered (gsf req sub)
      else if compose_server kw = [] then CheckResult.deny
      else check_scope_loop fu sub (compose_server kw) := by
  rw [check_scope_eq, hsub]

theorem check_scope_filter_mode {fu : Str → Option (List Str)}
    {gsf : Str → List (Str × List Str) → List Str}
    {model : ScopeModel} {req : Str} {sub : List (Str × List Str)}
    {kw : List (Str × Str)}
    (hsub : dictLookup model req = some (ScopeValue.filter sub))
    (hsf : strScopeFilter ∉ kw.map Prod.fst)
    (hne : kw ≠ []) :
    _check_scope fu gsf model req kw = check_scope_loop fu sub (compose_server kw) := by
  rw [check_scope_filter_case kw hsub]
  have h1 : dictLookup (compose_server kw) strScopeFilter = none := by
    rw [dictLookup_eq_none, compose_server_keys]
    exact hsf
  have h2 : compose_server kw ≠ [] := by
    intro hc
    apply hne
    have hmap := congrArg (List.map Prod.fst) hc
    rw [compose_server_keys] at hmap
    simpa using hmap
  rw [if_neg (by rw [h1]; simp), if_neg h2]

/-! ## Claim theorems -/

/-- C3: a requested scope absent from the parsed scope model yields the silent
`False` denial (no error raised), and a requested scope mapped to the
metascope marker `Scope.ALL` yields `True`, whatever attributes are
supplied. -/
theorem C3_unknown_scope_and_metascope
    (fu : Str → Option (List Str)) (gsf : Str → List (Str × List Str) → List Str)
    (model : ScopeModel) (req : Str) (kw : List (Str × Str)) :
    (dictLookup model req = none → _check_scope fu gsf model req kw = CheckResult.deny) ∧
    (dictLookup model req = some ScopeValue.all →
      _check_scope fu gsf model req kw = CheckResult.allow) :=
  ⟨fun h => check_scope_deny_of_absent kw h, fun h => check_scope_allow_of_all kw h⟩

theorem C3_unknown_scope_and_metascope_witness :
    _check_scope no_user_store empty_db_filter [] "s".toList [] = CheckResult.deny ∧
    _check_scope no_user_store empty_db_filter [("s".toList, ScopeValue.all)] "s".toList
      [("user".toList, "x".toList)] = CheckResult.allow :=
  ⟨(C3_unknown_scope_and_metascope no_user_store empty_db_filter [] "s".toList []).1
      (by decide),
   (C3_unknown_scope_and_metascope no_user_store empty_db_filter
      [("s".toList, ScopeValue.all)] "s".toList [("user".toList, "x".toList)]).2
      (by decide)⟩

/-- C6: when the requested scope maps to a filter map, a single-resource check
with an empty attribute dict returns the silent `False` denial, not the
404 error. -/
theorem C6_empty_attributes_deny
    (fu : Str → Option (List Str)) (gsf : Str → List (Str × List Str) → List Str)
    (model : ScopeModel) (req : Str) (sub : List (Str × List Str))
    (hsub : dictLookup model req = some (ScopeValue.filter sub)) :
    _check_scope fu gsf model req [] = CheckResult.deny := by
  rw [check_scope_filter_case [] hsub,
    if_neg (show ¬ (dictLookup (compose_server []) strScopeFilter).isSome = true by decide),
    if_pos (show compose_server [] = [] from rfl)]

theorem C6_empty_attributes_deny_witness :
    _check_scope no_user_store empty_db_filter
      [("s".toList, ScopeValue.filter [("user".toList, ["alice".toList])])]
      "s".toList [] = CheckResult.deny :=
  C6_empty_attributes_deny no_user_store empty_db_filter _ "s".toList
    [("user".toList, ["alice".toList])] (by decide)

/-- C7: a scope string with no `!` clause maps its scope name to the metascope
marker wherever it occurs in the input, and later filtered entries for that
name are ignored; in particular parsing `["s", "s!user=a"]` gives
`s -> Scope.ALL`. -/
theorem C7_metascope_dominates :
    (∀ (l1 l2 : List Str) (name : Str), ('!') ∉ name →
      dictLookup (parse_scopes (l1 ++ name :: l2)) name = some ScopeValue.all) ∧
    parse_scopes ["s".toList, "s!user=a".toList] = [("s".toList, ScopeValue.all)] := by
  constructor
  · intro l1 l2 name h
    unfold parse_scopes
    rw [List.foldl_append, List.foldl_cons]
    apply foldl_parse_preserves_all
    rw [parse_scope_step_unfiltered _ _ h, dictLookup_dictInsert, if_pos rfl]
  · decide

theorem C7_metascope_dominates_witness :
    dictLookup (parse_scopes ([] ++ "s".toList :: ["s!user=a".toList])) "s".toList
      = some ScopeValue.all :=
  C7_metascope_dominates.1 [] ["s!user=a".toList] "s".toList (by decide)

/-- C2 as stated is false: after `["s!user=a"]` the scope name `s` holds the
non-empty filter map `{user: ["a"]}`, yet a later unfiltered occurrence of
`s` replaces it with the metascope marker (`parsed_scopes[base_scope] =
Scope.ALL` runs unconditionally when the filter clause is empty). -/
theorem C2_counterexample :
    dictLookup (parse_scopes ["s!user=a".toList]) "s".toList
      = some (ScopeValue.filter [("user".toList, ["a".toList])]) ∧
    dictLookup (parse_scopes ["s!user=a".toList, "s".toList]) "s".toList
      = some ScopeValue.all := by
  decide

/-- C2 amended: every value in a parsed scope model is either the metascope
marker or a non-empty filter map, never both; but an accumulated filter map is
not protected: a later unfiltered occurrence of the same scope name
overwrites whatever value is present with the metascope marker. -/
theorem C2_amended_parse_invariant :
    (∀ (l : List Str) (k : Str) (v : ScopeValue),
      dictLookup (parse_scopes l) k = some v →
        v = ScopeValue.all ∨ ∃ fm, v = ScopeValue.filter fm ∧ fm ≠ []) ∧
    (∀ (m : ScopeModel) (name : Str), ('!') ∉ name →
      parse_scope_step m name = dictInsert m name ScopeValue.all) :=
  ⟨fun l => parse_scopes_wf l,
   fun m name h => parse_scope_step_unfiltered m name h⟩

theorem C2_amended_parse_invariant_witness :
    (ScopeValue.all = ScopeValue.all ∨
      ∃ fm, ScopeValue.all = ScopeValue.filter fm ∧ fm ≠ []) ∧
    parse_scope_step [("s".toList, ScopeValue.filter [("user".toList, ["a".toList])])]
        "s".toList
      = dictInsert [("s".toList, ScopeValue.filter [("user".toList, ["a".toList])])]
        "s".toList ScopeValue.all :=
  ⟨C2_amended_parse_invariant.1 ["s".toList] "s".toList ScopeValue.all (by decide),
   C2_amended_parse_invariant.2
     [("s".toList, ScopeValue.filter [("user".toList, ["a".toList])])] "s".toList
     (by decide)⟩

/-- C10: `parse_scopes` is total (a plain function on all string lists).  A
filter clause with no `=` records the whole clause text as a filter key with
the single empty-string value, and a scope string ending in a bare `!` is
handled exactly like one with no clause at all. -/
theorem C10_parser_total_malformed :
    parse_scopes ["s!userfoo".toList]
      = [("s".toList, ScopeValue.filter [("userfoo".toList, [([] : Str)])])] ∧
    (∀ (m : ScopeModel) (name : Str), ('!') ∉ name →
      parse_scope_step m (name ++ ['!']) = parse_scope_step m name) := by
  constructor
  · decide
  · intro m name h
    rw [parse_scope_step_eq, parse_scope_step_eq m name,
      pyPartition_append_sep h, pyPartition_not_mem h]

theorem C10_parser_total_malformed_witness :
    parse_scope_step [] ("s".toList ++ ['!']) = parse_scope_step [] "s".toList :=
  C10_parser_total_malformed.2 [] "s".toList (by decide)

/-- C1: in single-resource check mode (no `scope_filter` marker, non-empty
attributes), when no composed attribute pair matches the granted filter map
and, wherever group expansion applies, the membership check does not succeed
(the identity store does not know the user, or the user is in none of the
listed groups), `_check_scope` produces the single
`HTTPError(404, "No access to resources or resources not found")` — never the
silent `False` denial — so unauthorized and nonexistent resources are
indistinguishable. -/
theorem C1_unmatched_raises_not_found
    (fu : Str → Option (List Str)) (gsf : Str → List (Str × List Str) → List Str)
    (model : ScopeModel) (req : Str) (sub : List (Str × List Str))
    (kw : List (Str × Str))
    (hsub : dictLookup model req = some (ScopeValue.filter sub))
    (hsf : strScopeFilter ∉ kw.map Prod.fst)
    (hne : kw ≠ [])
    (hmatch : ∀ p ∈ compose_server kw, attr_matches sub p.1 p.2 = false)
    (hexp : ∀ p ∈ compose_server kw, _needs_scope_expansion p.1 p.2 sub = true →
      _check_user_in_expanded_scope fu p.2 ((dictLookup sub strGroup).getD [])
        ≠ Except.ok true) :
    _check_scope fu gsf model req kw = CheckResult.httpError 404 notFoundMsg := by
  rw [check_scope_filter_mode hsub hsf hne]
  exact check_scope_loop_404 (fun p hp => ⟨hmatch p hp, hexp p hp⟩)

theorem C1_unmatched_raises_not_found_witness :
    _check_scope no_user_store empty_db_filter
      [("s".toList, ScopeValue.filter [("group".toList, ["g".toList])])]
      "s".toList [("user".toList, "bob".toList)]
      = CheckResult.httpError 404 notFoundMsg :=
  C1_unmatched_raises_not_found no_user_store empty_db_filter
    [("s".toList, ScopeValue.filter [("group".toList, ["g".toList])])]
    "s".toList [("group".toList, ["g".toList])] [("user".toList, "bob".toList)]
    (by decide) (by decide) (by decide) (by decide)
    (by
      intro p hp hpe
      simp [_check_user_in_expanded_scope, no_user_store])

theorem needs_expansion_user {f fv : Str} {s : List (Str × List Str)}
    (h : _needs_scope_expansion f fv s = true) : f = strUser := by
  unfold _needs_scope_expansion at h
  by_cases hc : f = strUser ∧ (dictLookup s strGroup).isSome
  · exact hc.1
  · rw [if_pos hc] at h
    exact absurd h (by simp)

/-- C4: `_needs_scope_expansion` holds exactly when the filter key is `user`,
the sub-scope has a `group` filter, and the target user is not among the
sub-scope's explicit `user` values (or `user` is absent); and when it applies
with the target user a member of a listed group, the whole check is `True`. -/
theorem C4_group_expansion_allows
    (fu : Str → Option (List Str)) (gsf : Str → List (Str × List Str) → List Str)
    (model : ScopeModel) (req : Str) (sub : List (Str × List Str))
    (kw : List (Str × Str)) (v : Str) (gn : List Str)
    (hsub : dictLookup model req = some (ScopeValue.filter sub))
    (hnd : (kw.map Prod.fst).Nodup)
    (hsf : strScopeFilter ∉ kw.map Prod.fst)
    (hmem : (strUser, v) ∈ kw)
    (hexp : _needs_scope_expansion strUser v sub = true)
    (hfu : fu v = some gn)
    (hg : ((dictLookup sub strGroup).getD []).any (fun g => gn.contains g) = true) :
    (∀ (f fv : Str) (s : List (Str × List Str)),
      _needs_scope_expansion f fv s = true ↔
        (f = strUser ∧ strGroup ∈ s.map Prod.fst ∧
          (strUser ∉ s.map Prod.fst ∨ fv ∉ (dictLookup s strUser).getD []))) ∧
    _check_scope fu gsf model req kw = CheckResult.allow := by
  constructor
  · intro f fv s
    unfold _needs_scope_expansion
    by_cases hc : f = strUser ∧ (dictLookup s strGroup).isSome
    · rw [if_neg (not_not_intro hc)]
      cases hl : dictLookup s strUser with
      | none =>
        simp only [hc.1, true_and]
        have hg2 : strGroup ∈ s.map Prod.fst := (dictLookup_isSome s strGroup).mp hc.2
        have hu2 : strUser ∉ s.map Prod.fst := (dictLookup_eq_none s strUser).mp hl
        simp [hg2, hu2]
      | some vs =>
        have hg2 : strGroup ∈ s.map Prod.fst := (dictLookup_isSome s strGroup).mp hc.2
        have hu2 : strUser ∈ s.map Prod.fst := by
          rw [← dictLookup_isSome, hl]
          rfl
        simp [hc.1, hg2, hu2]
    · rw [if_pos hc]
      push_neg at hc
      constructor
      · intro hfalse
        exact absurd hfalse (by simp)
      · rintro ⟨hfu2, hgmem, -⟩
        exact absurd ((dictLookup_isSome s strGroup).mpr hgmem) (by simpa using hc hfu2)
  · have user_ne_server : strUser ≠ strServer := by decide
    have hfua : ∀ p ∈ compose_server kw,
        _needs_scope_expansion p.1 p.2 sub = true → (fu p.2).isSome = true := by
      intro p hp hpe
      have hpu : p.1 = strUser := needs_expansion_user hpe
      have hpkw : (strUser, p.2) ∈ kw := by
        rw [← compose_server_mem_iff user_ne_server]
        rw [← hpu]
        exact hp
      have hv2 : p.2 = v := dictLookup_unique hnd hpkw hmem
      rw [hv2, hfu]
      rfl
    rw [check_scope_filter_mode hsub hsf (List.ne_nil_of_mem hmem),
      check_scope_loop_char hfua]
    have hmemc : (strUser, v) ∈ compose_server kw :=
      (compose_server_mem_iff user_ne_server).mpr hmem
    have hgrant : entry_grants fu sub (strUser, v) = true := by
      unfold entry_grants
      simp only [hexp, hfu]
      rw [hg]
      simp
    rw [if_pos (List.any_eq_true.mpr ⟨_, hmemc, hgrant⟩)]

theorem C4_group_expansion_allows_witness :
    _check_scope carol_store empty_db_filter
      [("s".toList, ScopeValue.filter [("group".toList, ["admins".toList])])]
      "s".toList [("user".toList, "carol".toList)] = CheckResult.allow :=
  (C4_group_expansion_allows carol_store empty_db_filter
    [("s".toList, ScopeValue.filter [("group".toList, ["admins".toList])])]
    "s".toList [("group".toList, ["admins".toList])]
    [("user".toList, "carol".toList)] "carol".toList ["admins".toList]
    (by decide) (by decide) (by decide) (by decide) (by decide) (by decide)
    (by decide)).2

/-- C5 as stated is false: after server composition the attributes contain the
pair `(server, ghost/default)` which matches the granted sub-scope, yet the
check raises the 404 error instead of returning `True`, because the loop first
reaches the `user` attribute, group expansion applies to it, and the identity
store does not know user `ghost`. -/
theorem C5_counterexample :
    ("server".toList, "ghost/default".toList) ∈ compose_server ce_kwargs_user_first ∧
    dictLookup ce_model "s".toList = some (ScopeValue.filter
      [("group".toList, ["admins".toList]),
       ("server".toList, ["ghost/default".toList])]) ∧
    attr_matches [("group".toList, ["admins".toList]),
       ("server".toList, ["ghost/default".toList])]
      "server".toList "ghost/default".toList = true ∧
    _check_scope no_user_store empty_db_filter ce_model "s".toList ce_kwargs_user_first
      = CheckResult.httpError 404 notFoundMsg := by
  decide

/-- C5 amended: provided that, wherever group expansion applies to a composed
attribute pair, the identity store knows that user, any composed attribute
pair matching the granted sub-scope makes the check return `True`; the
server-composition example `{s: {server: {alice/default}}}` with attributes
`{user: alice, server: default}` is `True` unconditionally. -/
theorem C5_attribute_match_allows
    (fu : Str → Option (List Str)) (gsf : Str → List (Str × List Str) → List Str)
    (model : ScopeModel) (req : Str) (sub : List (Str × List Str))
    (kw : List (Str × Str)) (k x : Str)
    (hsub : dictLookup model req = some (ScopeValue.filter sub))
    (hsf : strScopeFilter ∉ kw.map Prod.fst)
    (hfua : ∀ p ∈ compose_server kw,
      _needs_scope_expansion p.1 p.2 sub = true → (fu p.2).isSome = true)
    (hmem : (k, x) ∈ compose_server kw)
    (hmatch : attr_matches sub k x = true) :
    _check_scope fu gsf model req kw = CheckResult.allow ∧
    _check_scope no_user_store empty_db_filter
      [("s".toList, ScopeValue.filter [("server".toList, ["alice/default".toList])])]
      "s".toList [("user".toList, "alice".toList), ("server".toList, "default".toList)]
      = CheckResult.allow := by
  constructor
  · have hne : kw ≠ [] := by
      intro hc
      subst hc
      exact List.not_mem_nil _ hmem
    rw [check_scope_filter_mode hsub hsf hne, check_scope_loop_char hfua]
    have hgrant : entry_grants fu sub (k, x) = true := by
      unfold entry_grants
      simp [hmatch]
    rw [if_pos (List.any_eq_true.mpr ⟨_, hmem, hgrant⟩)]
  · decide

theorem C5_attribute_match_allows_witness :
    _check_scope no_user_store empty_db_filter
      [("s".toList, ScopeValue.filter [("server".toList, ["alice/default".toList])])]
      "s".toList [("user".toList, "alice".toList), ("server".toList, "default".toList)]
      = CheckResult.allow :=
  (C5_attribute_match_allows no_user_store empty_db_filter
    [("s".toList, ScopeValue.filter [("server".toList, ["alice/default".toList])])]
    "s".toList [("server".toList, ["alice/default".toList])]
    [("user".toList, "alice".toList), ("server".toList, "default".toList)]
    "server".toList "alice/default".toList
    (by decide) (by decide)
    (by
      intro p hp hpe
      exact absurd hpe (by revert p hp; decide))
    (by decide) (by decide)).1

/-- C9 as stated is false: with the same scope model, identity store and
attribute map, listing the attributes user-first raises the 404 error while
listing them server-first returns `True` — the ordering changes the final
outcome, not merely the code path. -/
theorem C9_counterexample :
    ce_kwargs_user_first.Perm ce_kwargs_server_first ∧
    _check_scope no_user_store empty_db_filter ce_model "s".toList ce_kwargs_user_first
      = CheckResult.httpError 404 notFoundMsg ∧
    _check_scope no_user_store empty_db_filter ce_model "s".toList ce_kwargs_server_first
      = CheckResult.allow := by
  refine ⟨?_, by decide, by decide⟩
  exact List.Perm.swap _ _ _

/-- C9 amended: the outcome of `_check_scope` is independent of the ordering
of a duplicate-free attribute map (in single-resource mode), provided that,
wherever group expansion applies to a composed attribute pair, the identity
store knows that user (otherwise the 404 raised mid-loop can pre-empt a later
match, as the counterexample shows). -/
theorem C9_order_independent
    (fu : Str → Option (List Str)) (gsf : Str → List (Str × List Str) → List Str)
    (model : ScopeModel) (req : Str) (kw kw' : List (Str × Str))
    (hperm : kw.Perm kw')
    (hnd : (kw.map Prod.fst).Nodup)
    (hsf : strScopeFilter ∉ kw.map Prod.fst)
    (hfua : ∀ sub, dictLookup model req = some (ScopeValue.filter sub) →
      ∀ p ∈ compose_server kw, _needs_scope_expansion p.1 p.2 sub = true →
        (fu p.2).isSome = true) :
    _check_scope fu gsf model req kw = _check_scope fu gsf model req kw' := by
  cases hm : dictLookup model req with
  | none => rw [check_scope_deny_of_absent kw hm, check_scope_deny_of_absent kw' hm]
  | some sv =>
    cases sv with
    | all => rw [check_scope_allow_of_all kw hm, check_scope_allow_of_all kw' hm]
    | filter sub =>
      have hpermc : (compose_server kw).Perm (compose_server kw') :=
        compose_server_perm hperm hnd
      by_cases hkwnil : kw = []
      · subst hkwnil
        have hnil' : kw' = [] := hperm.symm.eq_nil
        subst hnil'
        rfl
      · have hsf' : strScopeFilter ∉ kw'.map Prod.fst :=
          fun hc => hsf ((hperm.map Prod.fst).mem_iff.mpr hc)
        have hne' : kw' ≠ [] := by
          intro hc
          exact hkwnil (List.Perm.eq_nil (hc ▸ hperm))
        have hfua1 := hfua sub hm
        have hfua2 : ∀ p ∈ compose_server kw',
            _needs_scope_expansion p.1 p.2 sub = true → (fu p.2).isSome = true :=
          fun p hp hpe => hfua1 p (hpermc.mem_iff.mpr hp) hpe
        rw [check_scope_filter_mode hm hsf hkwnil, check_scope_filter_mode hm hsf' hne',
          check_scope_loop_char hfua1, check_scope_loop_char hfua2,
          list_any_perm (entry_grants fu sub) hpermc]

theorem C9_order_independent_witness :
    _check_scope no_user_store empty_db_filter [("s".toList, ScopeValue.all)] "s".toList
        [("user".toList, "a".toList), ("group".toList, "g".toList)]
      = _check_scope no_user_store empty_db_filter [("s".toList, ScopeValue.all)]
        "s".toList [("group".toList, "g".toList), ("user".toList, "a".toList)] :=
  C9_order_independent no_user_store empty_db_filter
    [("s".toList, ScopeValue.all)] "s".toList
    [("user".toList, "a".toList), ("group".toList, "g".toList)]
    [("group".toList, "g".toList), ("user".toList, "a".toList)]
    (List.Perm.swap _ _ _) (by decide) (by decide)
    (by
      intro sub h
      have heq : dictLookup [("s".toList, ScopeValue.all)] "s".toList
          = some ScopeValue.all := by decide
      rw [heq] at h
      simp at h)

/-- C8: for every user name, `get_user_scopes` is a fixed set of exactly 12
scope strings — the six base user scopes and their `read:`-prefixed
counterparts — each annotated with the filter clause `!user=<name>`.  (As a
Lean function it is pure by construction.) -/
theorem C8_get_user_scopes_enumeration (name : Str) :
    (get_user_scopes name).card = 12 ∧
    (∀ s : Str, s ∈ get_user_scopes name ↔
      (s = "users".toList ++ "!user=".toList ++ name ∨
       s = "users:name".toList ++ "!user=".toList ++ name ∨
       s = "users:groups".toList ++ "!user=".toList ++ name ∨
       s = "users:activity".toList ++ "!user=".toList ++ name ∨
       s = "users:servers".toList ++ "!user=".toList ++ name ∨
       s = "users:tokens".toList ++ "!user=".toList ++ name ∨
       s = "read:".toList ++ "users".toList ++ "!user=".toList ++ name ∨
       s = "read:".toList ++ "users:name".toList ++ "!user=".toList ++ name ∨
       s = "read:".toList ++ "users:groups".toList ++ "!user=".toList ++ name ∨
       s = "read:".toList ++ "users:activity".toList ++ "!user=".toList ++ name ∨
       s = "read:".toList ++ "users:servers".toList ++ "!user=".toList ++ name ∨
       s = "read:".toList ++ "users:tokens".toList ++ "!user=".toList ++ name)) := by
  have hinj : Function.Injective (fun scope : Str => scope ++ "!user=".toList ++ name) := by
    intro a b hab
    simp only at hab
    exact List.append_cancel_right (List.append_cancel_right hab)
  constructor
  · have hnodup : (user_scope_list ++ user_scope_list.map
        (fun s => "read:".toList ++ s)).Nodup := by decide
    unfold get_user_scopes
    rw [List.toFinset_card_of_nodup (hnodup.map hinj), List.length_map]
    decide
  · intro s
    unfold get_user_scopes user_scope_list
    rw [List.mem_toFinset]
    simp [List.mem_map, eq_comm]

end JupyterHub
